import Mathlib

/-!
Shallow embedding of the multi-region manager of `khulnasoft-lab/web-scan`
(file `multi-region` module: class `MultiRegionManager` plus the static
`REGIONS` / `GEO_REGIONS` configuration), together with theorems settling
the frozen claims about it.

JavaScript `Map` objects are modelled as association lists in insertion
order (`Map.set` replaces in place for an existing key and appends for a
new key, `Map.get` looks up, iteration follows insertion order, exactly as
in the ECMAScript semantics).  Latencies are rationals (`performance.now`
differences), HTTP status codes are naturals.  Absent object fields are
`Option.none`.  The external HTTP transport (axios) is modelled by an
oracle giving the outcome of each attempted request; axios rejects every
response with a status outside `[200, 300)`, so a 4xx/5xx reply surfaces
in the `catch` branch with `error.response.status` set, while a
connection-level failure surfaces there with no response object.
-/

set_option linter.unusedVariables false

namespace MultiRegion

/-- A region's static configuration (one value of the `REGIONS` object). -/
structure RegionConfig where
  name : String
  endpoint : String
  priority : Nat
  healthCheck : String
  latencyThreshold : ℚ
  timezone : String
deriving DecidableEq

/-- The static `REGIONS` object, in key insertion order. -/
def REGIONS : List (String × RegionConfig) :=
  [("us-east-1",
      ⟨"US East (Virginia)", "https://us-east-api.web-scan.com", 1, "/health", 200,
        "America/New_York"⟩),
   ("us-west-2",
      ⟨"US West (Oregon)", "https://us-west-api.web-scan.com", 2, "/health", 250,
        "America/Los_Angeles"⟩),
   ("eu-west-1",
      ⟨"Europe (Ireland)", "https://eu-west-api.web-scan.com", 1, "/health", 300,
        "Europe/Dublin"⟩),
   ("ap-southeast-1",
      ⟨"Asia Pacific (Singapore)", "https://ap-southeast-api.web-scan.com", 1, "/health", 400,
        "Asia/Singapore"⟩)]

/-- The static `GEO_REGIONS` object mapping country codes to region lists. -/
def GEO_REGIONS : List (String × List String) :=
  [("US", ["us-east-1", "us-west-2"]),
   ("CA", ["us-east-1", "us-west-2"]),
   ("GB", ["eu-west-1"]),
   ("DE", ["eu-west-1"]),
   ("FR", ["eu-west-1"]),
   ("SG", ["ap-southeast-1"]),
   ("JP", ["ap-southeast-1"]),
   ("AU", ["ap-southeast-1"])]

/-- `Map.get k` / object property lookup on an insertion-ordered map. -/
def mapGet {α : Type} (m : List (String × α)) (k : String) : Option α :=
  (m.find? (fun p => p.1 == k)).map (fun p => p.2)

/-- `Map.set k v`: replace in place when the key exists, append otherwise. -/
def mapSet {α : Type} (m : List (String × α)) (k : String) (v : α) : List (String × α) :=
  if m.any (fun p => p.1 == k) then
    m.map (fun p => if p.1 == k then (k, v) else p)
  else
    m ++ [(k, v)]

/-- One per-region health record (`this.regionHealth` values).  Fields that a
given branch of the source does not write are `none` (the source builds a
fresh object literal each time, dropping all previous fields). -/
structure HealthRecord where
  regionId : String
  status : String
  latency : Option ℤ
  lastCheck : String
  responseTime : Option ℚ
  statusCode : Option Nat
  healthy : Bool
  error : Option String
  lastError : Option String
deriving DecidableEq

/-- One entry of `this.failoverHistory`. -/
structure FailoverEvent where
  timestamp : String
  fromRegion : String
  error : String
  attempt : Nat
deriving DecidableEq

/-- The mutable state of a `MultiRegionManager` instance. -/
structure ManagerState where
  currentRegion : String
  regionHealth : List (String × HealthRecord)
  latencyCache : List (String × List ℚ)
  failoverHistory : List FailoverEvent
deriving DecidableEq

/-- JavaScript `Math.round` on a rational (round half toward positive infinity). -/
def jsRound (q : ℚ) : ℤ := ⌊q + 1 / 2⌋

/-- The push-then-shift idiom used by the source for both bounded buffers
(`latencies.push(x); if (latencies.length > 10) latencies.shift();` and the
same with bound 100 for the failover history). -/
def boundedPush {α : Type} (bound : Nat) (l : List α) (x : α) : List α :=
  if (l ++ [x]).length > bound then (l ++ [x]).drop 1 else l ++ [x]

/-- `updateLatencyCache(regionId, latency)`: append the sample to the
region's window, evicting the oldest sample beyond 10 entries. -/
def updateLatencyCache (s : ManagerState) (regionId : String) (latency : ℚ) : ManagerState :=
  let latencies := (mapGet s.latencyCache regionId).getD []
  { s with latencyCache := mapSet s.latencyCache regionId (boundedPush 10 latencies latency) }

/-- `getAverageLatency(regionId)`: `null` when the window is empty, else the
arithmetic mean of the window. -/
def getAverageLatency (s : ManagerState) (regionId : String) : Option ℚ :=
  let latencies := (mapGet s.latencyCache regionId).getD []
  if latencies.length = 0 then none
  else some (latencies.foldl (fun sum lat => sum + lat) 0 / (latencies.length : ℚ))

/-- `avgLatency && avgLatency < bestLatency` from `selectByLatency`:
`bestLatency` starts as `Infinity`, modelled by `none`; a `null` or `0`
average is falsy in JavaScript and never passes the test. -/
def ltBest (avgLatency : ℚ) (bestLatency : Option ℚ) : Bool :=
  match bestLatency with
  | none => true
  | some b => avgLatency < b

/-- One iteration of the `selectByLatency` scan: keep the candidate with
the lowest truthy average so far (`best` is the pair `bestRegion`,
`bestLatency`). -/
def selectStep (s : ManagerState) (best : String × Option ℚ) (regionId : String) :
    String × Option ℚ :=
  match getAverageLatency s regionId with
  | some avgLatency =>
      if avgLatency ≠ 0 ∧ ltBest avgLatency best.2 = true then (regionId, some avgLatency)
      else best
  | none => best

/-- `selectByLatency(regionIds)`: linear scan keeping the region with the
lowest truthy average; the initial best is `regionIds[0]` (JavaScript
`undefined`, modelled by `""`, when the list is empty — never exercised). -/
def selectByLatency (s : ManagerState) (regionIds : List String) : String :=
  (regionIds.foldl (selectStep s) (regionIds.headD "", (none : Option ℚ))).1

/-- `getBestRegion(clientIP, userCountry)`. -/
def getBestRegion (s : ManagerState) (clientIP userCountry : Option String) : String :=
  let healthyRegions := (s.regionHealth.filter (fun p => p.2.healthy)).map (fun p => p.1)
  if healthyRegions.length = 0 then
    s.currentRegion
  else
    match userCountry with
    | some country =>
        if country ≠ "" then
          match mapGet GEO_REGIONS country with
          | some countryRegions =>
              let preferredRegions :=
                countryRegions.filter (fun regionId => healthyRegions.contains regionId)
              if preferredRegions.length > 0 then selectByLatency s preferredRegions
              else selectByLatency s healthyRegions
          | none => selectByLatency s healthyRegions
        else selectByLatency s healthyRegions
    | none => selectByLatency s healthyRegions

/-- The sort key of `getFailoverRegions`: `this.getAverageLatency(r) || Infinity`,
`Infinity` modelled by `none` (a `0` average is falsy and also becomes
`Infinity`). -/
def latencyKey (s : ManagerState) (regionId : String) : Option ℚ :=
  match getAverageLatency s regionId with
  | none => none
  | some q => if q = 0 then none else some q

/-- The effective "comes no later than" relation of the JavaScript comparator
`latencyA - latencyB` (with `Infinity - Infinity = NaN` treated as `+0`,
i.e. a tie, per the ECMAScript `SortCompare` semantics). -/
def leKey : Option ℚ → Option ℚ → Bool
  | _, none => true
  | none, some _ => false
  | some a, some b => a ≤ b

/-- Stable insertion of `x` into a list sorted by `le` (ties keep the
existing element first, as a stable sort does for an element arriving later). -/
def insertByLe {α : Type} (le : α → α → Bool) (x : α) : List α → List α
  | [] => [x]
  | y :: ys => if le y x then y :: insertByLe le x ys else x :: y :: ys

/-- Stable sort by a total boolean preorder, the observable behaviour of
`Array.prototype.sort` with a consistent comparator. -/
def stableSortByLe {α : Type} (le : α → α → Bool) (l : List α) : List α :=
  l.foldl (fun acc x => insertByLe le x acc) []

/-- The candidate list of `getFailoverRegions` before sorting: every
configured region other than `excludeRegion` whose health record exists and
is healthy, in configuration order. -/
def failoverCandidates (s : ManagerState) (excludeRegion : String) : List String :=
  ((REGIONS.map (fun p => p.1)).filter (fun regionId => regionId ≠ excludeRegion)).filter
    (fun regionId =>
      match mapGet s.regionHealth regionId with
      | some health => health.healthy
      | none => false)

/-- `getFailoverRegions(excludeRegion)`: healthy candidates sorted ascending
by average latency with `null`/`0` as `Infinity`. -/
def getFailoverRegions (s : ManagerState) (excludeRegion : String) : List String :=
  stableSortByLe (fun a b => leKey (latencyKey s a) (latencyKey s b))
    (failoverCandidates s excludeRegion)

/-- Outcome of one health probe (`axios.get` on the region's health path):
`ok` when axios resolves (status in `[200, 300)`), `err` when it rejects
(timeout, connection error, or non-2xx status). -/
inductive ProbeOutcome where
  | ok (status : Nat) (latency : ℚ)
  | err (message : String)
deriving DecidableEq

/-- The per-region body of `checkAllRegionsHealth` (the tick probes every
region concurrently but each region's handler touches only that region's
entries, so one probe is modelled in isolation).  `now` is the
`new Date().toISOString()` timestamp. -/
def checkRegionHealth (s : ManagerState) (regionId : String) (config : RegionConfig)
    (now : String) : ProbeOutcome → ManagerState
  | .ok status latency =>
      let health : HealthRecord :=
        { regionId := regionId
          status := if status = 200 then "healthy" else "unhealthy"
          latency := some (jsRound latency)
          lastCheck := now
          responseTime := some latency
          statusCode := some status
          healthy := status == 200 && decide (latency < config.latencyThreshold * 2)
          error := none
          lastError := none }
      let s1 := { s with regionHealth := mapSet s.regionHealth regionId health }
      updateLatencyCache s1 regionId latency
  | .err message =>
      let health : HealthRecord :=
        { regionId := regionId
          status := "unhealthy"
          latency := none
          lastCheck := now
          responseTime := none
          statusCode := none
          healthy := false
          error := some message
          lastError := none }
      { s with regionHealth := mapSet s.regionHealth regionId health }

/-- Outcome of one live request attempt (`axios({...})` in
`executeWithFailover`): success (2xx), an HTTP error response (axios
rejection carrying `error.response.status`), or a connection-level failure
(axios rejection with no response object). -/
inductive ReqOutcome where
  | success (status : Nat) (data : String) (duration : ℚ)
  | httpError (status : Nat) (message : String)
  | connError (message : String)
deriving DecidableEq

/-- The value returned by a successful `executeWithFailover` call. -/
structure ExecSuccess where
  data : String
  region : String
  latency : ℤ
  attempts : Nat
  status : Nat
deriving DecidableEq

/-- The exhaustion error thrown by `executeWithFailover`: attempt count and
the last underlying error message (`lastError?.message`, `none` when no
request was ever issued). -/
structure ExecError where
  attempts : Nat
  lastError : Option String
deriving DecidableEq

/-- Lines 278–285 of the catch block: flip the region's record to unhealthy
when it exists (it is re-read from the map inside the branch). -/
def markRegionUnhealthy (s : ManagerState) (regionId message : String) : ManagerState :=
  match mapGet s.regionHealth regionId with
  | some health =>
      { s with regionHealth :=
          mapSet s.regionHealth regionId { health with healthy := false, lastError := some message } }
  | none => s

/-- Lines 287–298 of the catch block: append a `FailoverEvent` and truncate
the history to its last 100 entries as part of the same append. -/
def recordFailoverEvent (s : ManagerState) (now regionId message : String)
    (attempt : Nat) : ManagerState :=
  { s with failoverHistory :=
      boundedPush 100 s.failoverHistory ⟨now, regionId, message, attempt⟩ }

/-- The `for (const regionId of regionOrder)` loop of `executeWithFailover`.
The oracle gives the outcome of the request issued to a region as attempt
number `attempts + 1`; `break` at the retry bound and falling off the end of
the list both reach the final `throw`. -/
def execLoop (oracle : String → Nat → ReqOutcome) (now : String) :
    List String → ManagerState → Nat → Nat → Option String →
    Except ExecError ExecSuccess × ManagerState
  | [], s, attempts, _maxRetries, lastError => (.error ⟨attempts, lastError⟩, s)
  | regionId :: rest, s, attempts, maxRetries, lastError =>
      if attempts ≥ maxRetries then (.error ⟨attempts, lastError⟩, s)
      else
        match mapGet REGIONS regionId with
        | none => execLoop oracle now rest s attempts maxRetries lastError
        | some _config =>
            match mapGet s.regionHealth regionId with
            | none => execLoop oracle now rest s attempts maxRetries lastError
            | some health =>
                if health.healthy = false then
                  execLoop oracle now rest s attempts maxRetries lastError
                else
                  match oracle regionId (attempts + 1) with
                  | .success status data duration =>
                      let s1 := updateLatencyCache s regionId duration
                      (.ok ⟨data, regionId, jsRound duration, attempts + 1, status⟩, s1)
                  | .httpError status message =>
                      let s1 := if 500 ≤ status then markRegionUnhealthy s regionId message else s
                      let s2 := recordFailoverEvent s1 now regionId message (attempts + 1)
                      execLoop oracle now rest s2 (attempts + 1) maxRetries (some message)
                  | .connError message =>
                      let s2 := recordFailoverEvent s now regionId message (attempts + 1)
                      execLoop oracle now rest s2 (attempts + 1) maxRetries (some message)

/-- `executeWithFailover(endpoint, options, maxRetries)`: try the preferred
region first, then the failover regions, issuing at most `maxRetries`
requests. -/
def executeWithFailover (oracle : String → Nat → ReqOutcome) (now : String)
    (s : ManagerState) (clientIP userCountry : Option String) (maxRetries : Nat) :
    Except ExecError ExecSuccess × ManagerState :=
  let preferredRegion := getBestRegion s clientIP userCountry
  let regionOrder := preferredRegion :: getFailoverRegions s preferredRegion
  execLoop oracle now regionOrder s 0 maxRetries none

/-- `excludeRegion :: getFailoverRegions` as built at the top of
`executeWithFailover`. -/
def regionOrderOf (s : ManagerState) (clientIP userCountry : Option String) : List String :=
  getBestRegion s clientIP userCountry :: getFailoverRegions s (getBestRegion s clientIP userCountry)

/-- The last `n` elements of a list. -/
def takeLast {α : Type} (n : Nat) (l : List α) : List α := l.drop (l.length - n)

/-- A candidate is skipped by the loop body without consuming an attempt:
unknown region key, no health record, or an unhealthy record. -/
def isSkipped (s : ManagerState) (regionId : String) : Bool :=
  match mapGet REGIONS regionId with
  | none => true
  | some _ =>
      match mapGet s.regionHealth regionId with
      | none => true
      | some health => !health.healthy

/-- A typical healthy record, as the health monitor writes it after a fast
200 probe. -/
def exHealthyRecord (regionId : String) : HealthRecord :=
  ⟨regionId, "healthy", some 50, "t0", some 50, some 200, true, none, none⟩

/-- A typical unhealthy record, as written after a failed probe. -/
def exUnhealthyRecord (regionId : String) : HealthRecord :=
  ⟨regionId, "unhealthy", none, "t0", none, none, false, some "connect ECONNREFUSED", none⟩

/-- Example state: us-east-1 and us-west-2 both healthy, no latency
samples recorded yet (so the routing order is the record insertion
order). -/
def exTwoHealthy : ManagerState :=
  ⟨"us-east-1",
   [("us-east-1", exHealthyRecord "us-east-1"), ("us-west-2", exHealthyRecord "us-west-2")],
   [], []⟩

/-- Example state: health records exist for two regions but none is healthy. -/
def exAllUnhealthy : ManagerState :=
  ⟨"us-east-1",
   [("us-east-1", exUnhealthyRecord "us-east-1"), ("us-west-2", exUnhealthyRecord "us-west-2")],
   [], []⟩

/-- Example state: fresh manager, no health records and no samples at all. -/
def exNoRecords : ManagerState := ⟨"us-east-1", [], [], []⟩

/-- Example state: us-west-2 (priority 2) and eu-west-1 (priority 1) both
healthy, neither with latency samples, so their sort keys tie. -/
def exTie : ManagerState :=
  ⟨"us-east-1",
   [("us-east-1", exUnhealthyRecord "us-east-1"),
    ("us-west-2", exHealthyRecord "us-west-2"),
    ("eu-west-1", exHealthyRecord "eu-west-1")],
   [], []⟩

/-- Example state: region-b has one recorded sample of 0 ms (average 0),
region-a has no samples. -/
def exZeroAvg : ManagerState := ⟨"us-east-1", [], [("region-b", [0])], []⟩

/-- Example state: region-b has one recorded sample of 4 ms. -/
def exPosAvg : ManagerState := ⟨"us-east-1", [], [("region-b", [4])], []⟩

/-- Example state: one healthy record for us-east-1 whose latency field
holds 50 ms. -/
def exProbe : ManagerState :=
  ⟨"us-east-1", [("us-east-1", exHealthyRecord "us-east-1")], [], []⟩

/-- The configuration of us-east-1 (first entry of `REGIONS`). -/
def usEastConfig : RegionConfig :=
  ⟨"US East (Virginia)", "https://us-east-api.web-scan.com", 1, "/health", 200,
    "America/New_York"⟩

/-- Oracle: requests to us-east-1 are answered 404, every other region
succeeds in 25 ms. -/
def oracle404 : String → Nat → ReqOutcome := fun regionId _attempt =>
  if regionId = "us-east-1" then .httpError 404 "Request failed with status code 404"
  else .success 200 "ok" 25

/-- Oracle: requests to us-east-1 fail at the connection level, every other
region succeeds in 25 ms. -/
def oracleConn : String → Nat → ReqOutcome := fun regionId _attempt =>
  if regionId = "us-east-1" then .connError "connect ECONNREFUSED"
  else .success 200 "ok" 25

/-- Twelve latency samples, two more than the window size. -/
def exSamples : List ℚ := [1, 2, 3, 4, 5, 6, 7, 8, 9, 10, 11, 12]

end MultiRegion

namespace MultiRegion

theorem find?_map_replace_self {α : Type} (m : List (String × α)) (k : String) (v : α)
    (h : m.any (fun p => p.1 == k) = true) :
    (m.map (fun p => if p.1 == k then (k, v) else p)).find? (fun p => p.1 == k) = some (k, v) := by
  induction m with
  | nil => simp at h
  | cons p ps ih =>
      rw [List.map_cons]
      cases hb : (p.1 == k) with
      | true =>
          rw [if_pos rfl]
          exact List.find?_cons_of_pos _ (by simp)
      | false =>
          rw [if_neg (by simp),
            List.find?_cons_of_neg (List.map (fun q => if q.1 == k then (k, v) else q) ps)
              (by simp [hb])]
          apply ih
          rw [List.any_cons, hb] at h
          simpa using h

theorem find?_append_new {α : Type} (m : List (String × α)) (k : String) (v : α)
    (h : m.any (fun p => p.1 == k) = false) :
    (m ++ [(k, v)]).find? (fun p => p.1 == k) = some (k, v) := by
  induction m with
  | nil =>
      rw [List.nil_append]
      exact List.find?_cons_of_pos _ (by simp)
  | cons p ps ih =>
      rw [List.any_cons] at h
      cases hb : (p.1 == k) with
      | true => rw [hb] at h; simp at h
      | false =>
          rw [List.cons_append, List.find?_cons_of_neg (ps ++ [(k, v)]) (by simp [hb])]
          apply ih
          rw [hb] at h
          simpa using h

theorem find?_map_replace_ne {α : Type} (m : List (String × α)) (k k' : String) (v : α)
    (h : (k == k') = false) :
    (m.map (fun p => if p.1 == k then (k, v) else p)).find? (fun p => p.1 == k') =
      m.find? (fun p => p.1 == k') := by
  induction m with
  | nil => rfl
  | cons p ps ih =>
      rw [List.map_cons]
      cases hb : (p.1 == k) with
      | true =>
          have hpk : p.1 = k := eq_of_beq hb
          rw [if_pos rfl,
            List.find?_cons_of_neg (List.map (fun q => if q.1 == k then (k, v) else q) ps)
              (by simp [h]),
            List.find?_cons_of_neg ps (by simp [hpk, h])]
          exact ih
      | false =>
          rw [if_neg (by simp)]
          cases hb' : (p.1 == k') with
          | true =>
              rw [List.find?_cons_of_pos (List.map (fun q => if q.1 == k then (k, v) else q) ps)
                  (by simp [hb']),
                List.find?_cons_of_pos ps (by simp [hb'])]
          | false =>
              rw [List.find?_cons_of_neg (List.map (fun q => if q.1 == k then (k, v) else q) ps)
                  (by simp [hb']),
                List.find?_cons_of_neg ps (by simp [hb'])]
              exact ih

theorem find?_append_ne {α : Type} (m : List (String × α)) (k k' : String) (v : α)
    (h : (k == k') = false) :
    (m ++ [(k, v)]).find? (fun p => p.1 == k') = m.find? (fun p => p.1 == k') := by
  induction m with
  | nil =>
      rw [List.nil_append, List.find?_cons_of_neg [] (by simp [h])]
  | cons p ps ih =>
      cases hb : (p.1 == k') with
      | true =>
          rw [List.cons_append, List.find?_cons_of_pos (ps ++ [(k, v)]) (by simp [hb]),
            List.find?_cons_of_pos ps (by simp [hb])]
      | false =>
          rw [List.cons_append, List.find?_cons_of_neg (ps ++ [(k, v)]) (by simp [hb]),
            List.find?_cons_of_neg ps (by simp [hb])]
          exact ih

theorem mapGet_mapSet_self {α : Type} (m : List (String × α)) (k : String) (v : α) :
    mapGet (mapSet m k v) k = some v := by
  unfold mapGet mapSet
  cases hany : m.any (fun p => p.1 == k) with
  | true =>
      rw [if_pos rfl, find?_map_replace_self m k v hany]
      rfl
  | false =>
      rw [if_neg (by simp), find?_append_new m k v hany]
      rfl

theorem mapGet_mapSet_ne {α : Type} (m : List (String × α)) (k k' : String) (v : α)
    (h : k' ≠ k) :
    mapGet (mapSet m k v) k' = mapGet m k' := by
  have hbeq : (k == k') = false := by
    cases hb : (k == k') with
    | false => rfl
    | true => exact absurd (eq_of_beq hb).symm h
  unfold mapGet mapSet
  cases hany : m.any (fun p => p.1 == k) with
  | true => rw [if_pos rfl, find?_map_replace_ne m k k' v hbeq]
  | false => rw [if_neg (by simp), find?_append_ne m k k' v hbeq]

theorem mapGet_eq_some_mem {α : Type} (m : List (String × α)) (k : String) (v : α)
    (h : mapGet m k = some v) : (k, v) ∈ m := by
  unfold mapGet at h
  cases hf : m.find? (fun p => p.1 == k) with
  | none => rw [hf] at h; simp at h
  | some p =>
      rw [hf] at h
      simp at h
      have hmem := List.mem_of_find?_eq_some hf
      have hk : p.1 = k := by
        have hpk := List.find?_some hf
        simpa using hpk
      have hp : p = (k, v) := by
        cases p with
        | mk a b =>
            simp at hk h
            rw [hk, h]
      rw [← hp]
      exact hmem

theorem length_boundedPush_le {α : Type} (bound : Nat) (l : List α) (x : α)
    (h : l.length ≤ bound) : (boundedPush bound l x).length ≤ bound := by
  unfold boundedPush
  split
  · next hgt => simp at hgt ⊢; omega
  · next hle => simp at hle ⊢; omega

theorem takeLast_of_le {α : Type} (n : Nat) (l : List α) (h : l.length ≤ n) :
    takeLast n l = l := by
  unfold takeLast
  have hz : l.length - n = 0 := by omega
  rw [hz, List.drop_zero]

theorem boundedPush_eq_takeLast {α : Type} (bound : Nat) (l : List α) (x : α)
    (h : l.length ≤ bound) :
    boundedPush bound l x = takeLast bound (l ++ [x]) := by
  unfold boundedPush takeLast
  split
  · next hgt =>
      have h1 : (l ++ [x]).length - bound = 1 := by simp at hgt ⊢; omega
      rw [h1]
  · next hle =>
      have h0 : (l ++ [x]).length - bound = 0 := by simp at hle ⊢; omega
      rw [h0, List.drop_zero]

theorem takeLast_takeLast_append {α : Type} (n : Nat) (a xs : List α) :
    takeLast n (takeLast n a ++ xs) = takeLast n (a ++ xs) := by
  unfold takeLast
  rw [List.drop_append_eq_append_drop, List.drop_append_eq_append_drop, List.drop_drop]
  congr 1
  · congr 1
    simp only [List.length_append, List.length_drop]
    omega
  · congr 1
    simp only [List.length_append, List.length_drop]
    omega

theorem foldl_boundedPush {α : Type} (bound : Nat) (xs : List α) :
    ∀ l : List α, l.length ≤ bound →
      xs.foldl (boundedPush bound) l = takeLast bound (l ++ xs) := by
  induction xs with
  | nil =>
      intro l h
      simpa using (takeLast_of_le bound l h).symm
  | cons x xs ih =>
      intro l h
      rw [List.foldl_cons, ih (boundedPush bound l x) (length_boundedPush_le bound l x h),
        boundedPush_eq_takeLast bound l x h, takeLast_takeLast_append]
      simp


theorem updateLatencyCache_get (s : ManagerState) (regionId : String) (latency : ℚ) :
    mapGet (updateLatencyCache s regionId latency).latencyCache regionId =
      some (boundedPush 10 ((mapGet s.latencyCache regionId).getD []) latency) := by
  unfold updateLatencyCache
  exact mapGet_mapSet_self _ _ _

theorem updateLatencyCache_regionHealth (s : ManagerState) (regionId : String) (latency : ℚ) :
    (updateLatencyCache s regionId latency).regionHealth = s.regionHealth := rfl

theorem updateLatencyCache_failoverHistory (s : ManagerState) (regionId : String) (latency : ℚ) :
    (updateLatencyCache s regionId latency).failoverHistory = s.failoverHistory := rfl

theorem markRegionUnhealthy_failoverHistory (s : ManagerState) (regionId message : String) :
    (markRegionUnhealthy s regionId message).failoverHistory = s.failoverHistory := by
  unfold markRegionUnhealthy
  cases mapGet s.regionHealth regionId <;> rfl

theorem recordFailoverEvent_regionHealth (s : ManagerState) (now regionId message : String)
    (attempt : Nat) :
    (recordFailoverEvent s now regionId message attempt).regionHealth = s.regionHealth := rfl

theorem recordFailoverEvent_latencyCache (s : ManagerState) (now regionId message : String)
    (attempt : Nat) :
    (recordFailoverEvent s now regionId message attempt).latencyCache = s.latencyCache := rfl

theorem recordFailoverEvent_failoverHistory (s : ManagerState) (now regionId message : String)
    (attempt : Nat) :
    (recordFailoverEvent s now regionId message attempt).failoverHistory =
      boundedPush 100 s.failoverHistory ⟨now, regionId, message, attempt⟩ := rfl

theorem foldl_updateLatencyCache_get (regionId : String) (xs : List ℚ) :
    ∀ s : ManagerState,
      (mapGet ((xs.foldl (fun s x => updateLatencyCache s regionId x) s).latencyCache)
          regionId).getD [] =
        xs.foldl (boundedPush 10) ((mapGet s.latencyCache regionId).getD []) := by
  induction xs with
  | nil => intro s; rfl
  | cons x xs ih =>
      intro s
      rw [List.foldl_cons, List.foldl_cons, ih, updateLatencyCache_get]
      rfl

theorem leKey_total (a b : Option ℚ) : leKey a b = true ∨ leKey b a = true := by
  cases a with
  | none => cases b with
    | none => left; rfl
    | some q => right; rfl
  | some p => cases b with
    | none => left; rfl
    | some q =>
        rcases le_total p q with h | h
        · left; simpa [leKey] using h
        · right; simpa [leKey] using h

theorem leKey_trans (a b c : Option ℚ) (hab : leKey a b = true) (hbc : leKey b c = true) :
    leKey a c = true := by
  cases a with
  | none =>
      cases b with
      | none => exact hbc
      | some q => simp [leKey] at hab
  | some p =>
      cases c with
      | none => rfl
      | some r =>
          cases b with
          | none => simp [leKey] at hbc
          | some q =>
              simp [leKey] at hab hbc ⊢
              exact le_trans hab hbc

theorem insertByLe_perm {α : Type} (le : α → α → Bool) (x : α) (l : List α) :
    List.Perm (insertByLe le x l) (x :: l) := by
  induction l with
  | nil => exact List.Perm.refl _
  | cons y ys ih =>
      unfold insertByLe
      split
      · exact ((ih.cons y).trans (List.Perm.swap x y ys))
      · exact List.Perm.refl _

theorem foldl_insertByLe_perm {α : Type} (le : α → α → Bool) (l : List α) :
    ∀ acc : List α, List.Perm (l.foldl (fun a x => insertByLe le x a) acc) (acc ++ l) := by
  induction l with
  | nil => intro acc; simp
  | cons x xs ih =>
      intro acc
      rw [List.foldl_cons]
      refine ((ih (insertByLe le x acc)).trans ?_)
      refine (((insertByLe_perm le x acc).append_right xs).trans ?_)
      exact (List.perm_middle).symm

theorem stableSortByLe_perm {α : Type} (le : α → α → Bool) (l : List α) :
    List.Perm (stableSortByLe le l) l := by
  unfold stableSortByLe
  simpa using foldl_insertByLe_perm le l []

theorem insertByLe_pairwise {α : Type} (le : α → α → Bool)
    (htot : ∀ a b, le a b = true ∨ le b a = true)
    (htrans : ∀ a b c, le a b = true → le b c = true → le a c = true)
    (x : α) (l : List α) (h : l.Pairwise (fun a b => le a b = true)) :
    (insertByLe le x l).Pairwise (fun a b => le a b = true) := by
  induction l with
  | nil => simp [insertByLe]
  | cons y ys ih =>
      rw [List.pairwise_cons] at h
      unfold insertByLe
      split
      · next hyx =>
          rw [List.pairwise_cons]
          constructor
          · intro z hz
            rcases List.mem_cons.mp ((insertByLe_perm le x ys).mem_iff.mp hz) with hzx | hzys
            · rw [hzx]; exact hyx
            · exact h.1 z hzys
          · exact ih h.2
      · next hyx =>
          have hxy : le x y = true := by
            rcases htot x y with hx | hy
            · exact hx
            · exact absurd hy hyx
          rw [List.pairwise_cons]
          constructor
          · intro z hz
            rcases List.mem_cons.mp hz with hzy | hzys
            · rw [hzy]; exact hxy
            · exact htrans x y z hxy (h.1 z hzys)
          · rw [List.pairwise_cons]
            exact h
  
theorem foldl_insertByLe_pairwise {α : Type} (le : α → α → Bool)
    (htot : ∀ a b, le a b = true ∨ le b a = true)
    (htrans : ∀ a b c, le a b = true → le b c = true → le a c = true)
    (l : List α) :
    ∀ acc : List α, acc.Pairwise (fun a b => le a b = true) →
      (l.foldl (fun a x => insertByLe le x a) acc).Pairwise (fun a b => le a b = true) := by
  induction l with
  | nil => intro acc h; simpa using h
  | cons x xs ih =>
      intro acc h
      rw [List.foldl_cons]
      exact ih (insertByLe le x acc) (insertByLe_pairwise le htot htrans x acc h)

theorem stableSortByLe_pairwise {α : Type} (le : α → α → Bool)
    (htot : ∀ a b, le a b = true ∨ le b a = true)
    (htrans : ∀ a b c, le a b = true → le b c = true → le a c = true)
    (l : List α) :
    (stableSortByLe le l).Pairwise (fun a b => le a b = true) := by
  unfold stableSortByLe
  exact foldl_insertByLe_pairwise le htot htrans l [] (List.Pairwise.nil)


theorem execLoop_nil (oracle : String → Nat → ReqOutcome) (now : String) (s : ManagerState)
    (attempts maxRetries : Nat) (lastError : Option String) :
    execLoop oracle now [] s attempts maxRetries lastError =
      (.error ⟨attempts, lastError⟩, s) := rfl

theorem execLoop_cons_break (oracle : String → Nat → ReqOutcome) (now : String)
    (regionId : String) (rest : List String) (s : ManagerState)
    (attempts maxRetries : Nat) (lastError : Option String)
    (hge : attempts ≥ maxRetries) :
    execLoop oracle now (regionId :: rest) s attempts maxRetries lastError =
      (.error ⟨attempts, lastError⟩, s) := by
  simp [execLoop, hge]

theorem execLoop_cons_success (oracle : String → Nat → ReqOutcome) (now : String)
    (regionId : String) (rest : List String) (s : ManagerState)
    (attempts maxRetries : Nat) (lastError : Option String)
    (config : RegionConfig) (health : HealthRecord)
    (status : Nat) (data : String) (duration : ℚ)
    (hlt : attempts < maxRetries)
    (hc : mapGet REGIONS regionId = some config)
    (hh : mapGet s.regionHealth regionId = some health)
    (hhl : health.healthy = true)
    (ho : oracle regionId (attempts + 1) = .success status data duration) :
    execLoop oracle now (regionId :: rest) s attempts maxRetries lastError =
      (.ok ⟨data, regionId, jsRound duration, attempts + 1, status⟩,
        updateLatencyCache s regionId duration) := by
  have hge : ¬attempts ≥ maxRetries := by omega
  simp [execLoop, hge, hc, hh, hhl, ho]

theorem execLoop_cons_httpError (oracle : String → Nat → ReqOutcome) (now : String)
    (regionId : String) (rest : List String) (s : ManagerState)
    (attempts maxRetries : Nat) (lastError : Option String)
    (config : RegionConfig) (health : HealthRecord)
    (status : Nat) (message : String)
    (hlt : attempts < maxRetries)
    (hc : mapGet REGIONS regionId = some config)
    (hh : mapGet s.regionHealth regionId = some health)
    (hhl : health.healthy = true)
    (ho : oracle regionId (attempts + 1) = .httpError status message) :
    execLoop oracle now (regionId :: rest) s attempts maxRetries lastError =
      execLoop oracle now rest
        (recordFailoverEvent (if 500 ≤ status then markRegionUnhealthy s regionId message else s)
          now regionId message (attempts + 1))
        (attempts + 1) maxRetries (some message) := by
  have hge : ¬attempts ≥ maxRetries := by omega
  simp [execLoop, hge, hc, hh, hhl, ho]

theorem execLoop_cons_connError (oracle : String → Nat → ReqOutcome) (now : String)
    (regionId : String) (rest : List String) (s : ManagerState)
    (attempts maxRetries : Nat) (lastError : Option String)
    (config : RegionConfig) (health : HealthRecord)
    (message : String)
    (hlt : attempts < maxRetries)
    (hc : mapGet REGIONS regionId = some config)
    (hh : mapGet s.regionHealth regionId = some health)
    (hhl : health.healthy = true)
    (ho : oracle regionId (attempts + 1) = .connError message) :
    execLoop oracle now (regionId :: rest) s attempts maxRetries lastError =
      execLoop oracle now rest (recordFailoverEvent s now regionId message (attempts + 1))
        (attempts + 1) maxRetries (some message) := by
  have hge : ¬attempts ≥ maxRetries := by omega
  simp [execLoop, hge, hc, hh, hhl, ho]

theorem execLoop_skip (oracle : String → Nat → ReqOutcome) (now : String)
    (regionId : String) (rest : List String) (s : ManagerState)
    (attempts maxRetries : Nat) (lastError : Option String)
    (h : isSkipped s regionId = true) :
    execLoop oracle now (regionId :: rest) s attempts maxRetries lastError =
      execLoop oracle now rest s attempts maxRetries lastError := by
  by_cases hge : attempts ≥ maxRetries
  · cases rest with
    | nil => simp [execLoop, hge]
    | cons r rs => simp [execLoop, hge]
  · unfold isSkipped at h
    cases hc : mapGet REGIONS regionId with
    | none => simp [execLoop, hge, hc]
    | some config =>
        rw [hc] at h
        cases hh : mapGet s.regionHealth regionId with
        | none => simp [execLoop, hge, hc, hh]
        | some health =>
            rw [hh] at h
            simp at h
            simp [execLoop, hge, hc, hh, h]

theorem execLoop_all_skipped (oracle : String → Nat → ReqOutcome) (now : String)
    (order : List String) :
    ∀ (s : ManagerState) (attempts maxRetries : Nat) (lastError : Option String),
      (∀ r ∈ order, isSkipped s r = true) →
      execLoop oracle now order s attempts maxRetries lastError =
        (.error ⟨attempts, lastError⟩, s) := by
  induction order with
  | nil => intro s a mr le h; rfl
  | cons r rs ih =>
      intro s a mr le h
      rw [execLoop_skip oracle now r rs s a mr le (h r (List.mem_cons_self r rs))]
      exact ih s a mr le (fun x hx => h x (List.mem_cons_of_mem r hx))

theorem execLoop_history_le (oracle : String → Nat → ReqOutcome) (now : String)
    (order : List String) :
    ∀ (s : ManagerState) (attempts maxRetries : Nat) (lastError : Option String),
      s.failoverHistory.length ≤ 100 →
      (execLoop oracle now order s attempts maxRetries lastError).2.failoverHistory.length
        ≤ 100 := by
  induction order with
  | nil => intro s a mr le h; exact h
  | cons r rs ih =>
      intro s a mr le h
      by_cases hge : a ≥ mr
      · rw [execLoop_cons_break oracle now r rs s a mr le hge]
        exact h
      · have hlt : a < mr := by omega
        cases hc : mapGet REGIONS r with
        | none =>
            rw [execLoop_skip oracle now r rs s a mr le (by unfold isSkipped; rw [hc])]
            exact ih s a mr le h
        | some config =>
            cases hh : mapGet s.regionHealth r with
            | none =>
                rw [execLoop_skip oracle now r rs s a mr le
                  (by unfold isSkipped; rw [hc, hh])]
                exact ih s a mr le h
            | some health =>
                cases hhl : health.healthy with
                | false =>
                    rw [execLoop_skip oracle now r rs s a mr le
                      (by unfold isSkipped; rw [hc, hh]; simp [hhl])]
                    exact ih s a mr le h
                | true =>
                    cases ho : oracle r (a + 1) with
                    | success st data dur =>
                        rw [execLoop_cons_success oracle now r rs s a mr le config health
                          st data dur hlt hc hh hhl ho]
                        simpa [updateLatencyCache_failoverHistory] using h
                    | httpError st msg =>
                        rw [execLoop_cons_httpError oracle now r rs s a mr le config health
                          st msg hlt hc hh hhl ho]
                        apply ih
                        rw [recordFailoverEvent_failoverHistory]
                        apply length_boundedPush_le
                        by_cases h5 : 500 ≤ st
                        · rw [if_pos h5, markRegionUnhealthy_failoverHistory]
                          exact h
                        · rw [if_neg h5]
                          exact h
                    | connError msg =>
                        rw [execLoop_cons_connError oracle now r rs s a mr le config health
                          msg hlt hc hh hhl ho]
                        apply ih
                        rw [recordFailoverEvent_failoverHistory]
                        exact length_boundedPush_le 100 s.failoverHistory _ h


theorem selectStep_eq_of_none (s : ManagerState) (acc : String × Option ℚ) (r : String)
    (havg : getAverageLatency s r = none) : selectStep s acc r = acc := by
  unfold selectStep
  rw [havg]

theorem selectStep_eq_of_pos (s : ManagerState) (acc : String × Option ℚ) (r : String) (a : ℚ)
    (havg : getAverageLatency s r = some a) (hcond : a ≠ 0 ∧ ltBest a acc.2 = true) :
    selectStep s acc r = (r, some a) := by
  unfold selectStep
  rw [havg]
  show (if a ≠ 0 ∧ ltBest a acc.2 = true then (r, some a) else acc) = (r, some a)
  exact if_pos hcond

theorem selectStep_eq_of_neg (s : ManagerState) (acc : String × Option ℚ) (r : String) (a : ℚ)
    (havg : getAverageLatency s r = some a) (hcond : ¬(a ≠ 0 ∧ ltBest a acc.2 = true)) :
    selectStep s acc r = acc := by
  unfold selectStep
  rw [havg]
  show (if a ≠ 0 ∧ ltBest a acc.2 = true then (r, some a) else acc) = acc
  exact if_neg hcond

theorem foldl_selectStep_inv (s : ManagerState) (l : List String) :
    ∀ acc : String × Option ℚ,
      (acc.2 = none ∨ ∃ v, acc.2 = some v ∧ v ≠ 0 ∧ getAverageLatency s acc.1 = some v) →
      ((l.foldl (selectStep s) acc).2 = none ∨
        ∃ v, (l.foldl (selectStep s) acc).2 = some v ∧ v ≠ 0 ∧
          getAverageLatency s (l.foldl (selectStep s) acc).1 = some v) := by
  induction l with
  | nil => intro acc h; exact h
  | cons r l ih =>
      intro acc h
      rw [List.foldl_cons]
      apply ih
      cases havg : getAverageLatency s r with
      | none => rw [selectStep_eq_of_none s acc r havg]; exact h
      | some a =>
          by_cases hcond : a ≠ 0 ∧ ltBest a acc.2 = true
          · rw [selectStep_eq_of_pos s acc r a havg hcond]
            exact Or.inr ⟨a, rfl, hcond.1, havg⟩
          · rw [selectStep_eq_of_neg s acc r a havg hcond]
            exact h

theorem foldl_selectStep_bound (s : ManagerState) (l : List String) :
    ∀ (acc : String × Option ℚ) (v : ℚ), acc.2 = some v → v ≠ 0 →
      getAverageLatency s acc.1 = some v →
      ∃ w, (l.foldl (selectStep s) acc).2 = some w ∧ w ≠ 0 ∧ w ≤ v ∧
        getAverageLatency s (l.foldl (selectStep s) acc).1 = some w := by
  induction l with
  | nil =>
      intro acc v h1 h2 h3
      exact ⟨v, h1, h2, le_refl v, h3⟩
  | cons r l ih =>
      intro acc v h1 h2 h3
      rw [List.foldl_cons]
      cases havg : getAverageLatency s r with
      | none =>
          rw [selectStep_eq_of_none s acc r havg]
          exact ih acc v h1 h2 h3
      | some a =>
          by_cases hcond : a ≠ 0 ∧ ltBest a acc.2 = true
          · rw [selectStep_eq_of_pos s acc r a havg hcond]
            have hav : a ≤ v := by
              have hlt := hcond.2
              rw [h1] at hlt
              simp [ltBest] at hlt
              exact le_of_lt hlt
            obtain ⟨w, hw1, hw2, hw3, hw4⟩ := ih (r, some a) a rfl hcond.1 havg
            exact ⟨w, hw1, hw2, le_trans hw3 hav, hw4⟩
          · rw [selectStep_eq_of_neg s acc r a havg hcond]
            exact ih acc v h1 h2 h3

theorem filter_healthy_nil (s : ManagerState)
    (hall : ∀ p ∈ s.regionHealth, p.2.healthy = false) :
    s.regionHealth.filter (fun p => p.2.healthy) = [] := by
  rw [List.filter_eq_nil_iff]
  intro p hp
  simp [hall p hp]

theorem getBestRegion_no_healthy (s : ManagerState) (clientIP userCountry : Option String)
    (hall : ∀ p ∈ s.regionHealth, p.2.healthy = false) :
    getBestRegion s clientIP userCountry = s.currentRegion := by
  unfold getBestRegion
  rw [filter_healthy_nil s hall]
  rfl

theorem isSkipped_of_all_unhealthy (s : ManagerState) (r : String)
    (hall : ∀ p ∈ s.regionHealth, p.2.healthy = false) :
    isSkipped s r = true := by
  unfold isSkipped
  cases hc : mapGet REGIONS r with
  | none => rfl
  | some config =>
      cases hh : mapGet s.regionHealth r with
      | none => rfl
      | some health =>
          have hfalse := hall (r, health) (mapGet_eq_some_mem s.regionHealth r health hh)
          simp at hfalse
          simp [hfalse]

theorem failoverCandidates_no_healthy (s : ManagerState) (excludeRegion : String)
    (hall : ∀ p ∈ s.regionHealth, p.2.healthy = false) :
    failoverCandidates s excludeRegion = [] := by
  unfold failoverCandidates
  rw [List.filter_eq_nil_iff]
  intro r hr
  cases hh : mapGet s.regionHealth r with
  | none => simp
  | some health =>
      have hfalse := hall (r, health) (mapGet_eq_some_mem s.regionHealth r health hh)
      simp at hfalse
      simp [hfalse]

theorem getFailoverRegions_no_healthy (s : ManagerState) (excludeRegion : String)
    (hall : ∀ p ∈ s.regionHealth, p.2.healthy = false) :
    getFailoverRegions s excludeRegion = [] := by
  unfold getFailoverRegions
  rw [failoverCandidates_no_healthy s excludeRegion hall]
  rfl


/-- C4 (amended): for every routing decision the failover candidates are
ordered ascending by average latency, where a `null` (and a `0`) average
counts as infinity, and the result is a permutation of the healthy
non-excluded candidates; no priority or identifier tie-break is applied —
tied candidates are left by the stable sort in configuration order.  The
ordering is deterministic for a fixed snapshot because
`getFailoverRegions` is a function of the state. -/
theorem c4_amended (s : ManagerState) (excludeRegion : String) :
    (getFailoverRegions s excludeRegion).Pairwise
        (fun a b => leKey (latencyKey s a) (latencyKey s b) = true) ∧
    List.Perm (getFailoverRegions s excludeRegion) (failoverCandidates s excludeRegion) := by
  constructor
  · unfold getFailoverRegions
    exact stableSortByLe_pairwise _
      (fun a b => leKey_total (latencyKey s a) (latencyKey s b))
      (fun a b c hab hbc => leKey_trans (latencyKey s a) (latencyKey s b) (latencyKey s c) hab hbc)
      (failoverCandidates s excludeRegion)
  · exact stableSortByLe_perm _ _

/-- C4 (counterexample): with us-west-2 (priority 2) and eu-west-1
(priority 1) healthy and their averages tied (both `null`), the sort keeps
us-west-2 — the configuration order — before eu-west-1, instead of
breaking the tie by ascending priority as the claim states. -/
theorem c4_counterexample :
    getFailoverRegions exTie "us-east-1" = ["us-west-2", "eu-west-1"] ∧
    (mapGet REGIONS "us-west-2").map RegionConfig.priority = some 2 ∧
    (mapGet REGIONS "eu-west-1").map RegionConfig.priority = some 1 ∧
    getAverageLatency exTie "us-west-2" = getAverageLatency exTie "eu-west-1" :=
  ⟨rfl, rfl, rfl, rfl⟩

/-- C5: `getAverageLatency` is `null` until a first sample is recorded for
the region, and after any sequence of recorded samples it equals the
arithmetic mean of at most the last 10 samples, older samples having been
evicted first-in-first-out. -/
theorem c5_latency_window (xs : List ℚ) (regionId : String) (s0 : ManagerState)
    (h0 : mapGet s0.latencyCache regionId = none) :
    getAverageLatency (xs.foldl (fun s x => updateLatencyCache s regionId x) s0) regionId =
      if xs.isEmpty then none
      else some ((takeLast 10 xs).sum / ((takeLast 10 xs).length : ℚ)) := by
  simp only [getAverageLatency]
  rw [foldl_updateLatencyCache_get, h0]
  simp only [Option.getD_none]
  rw [foldl_boundedPush 10 xs [] (by simp), List.nil_append]
  cases xs with
  | nil => simp [takeLast]
  | cons y ys =>
      have hne : ¬(takeLast 10 (y :: ys)).length = 0 := by
        unfold takeLast
        simp only [List.length_drop, List.length_cons]
        omega
      rw [if_neg hne, if_neg (by simp)]
      rw [List.sum_eq_foldl]

/-- C6: the failover-event log is truncated as part of each append (the
append operation itself returns the last 100 entries, evicting the oldest
first), and any `executeWithFailover` call starting from a state within
the bound leaves the log within 100 entries no matter how many attempts
fail. -/
theorem c6_history_bound :
    (∀ (s : ManagerState) (now regionId message : String) (attempt : Nat),
        s.failoverHistory.length ≤ 100 →
        (recordFailoverEvent s now regionId message attempt).failoverHistory =
          takeLast 100 (s.failoverHistory ++ [⟨now, regionId, message, attempt⟩]) ∧
        (recordFailoverEvent s now regionId message attempt).failoverHistory.length ≤ 100) ∧
    (∀ (oracle : String → Nat → ReqOutcome) (now : String) (s : ManagerState)
        (clientIP userCountry : Option String) (maxRetries : Nat),
        s.failoverHistory.length ≤ 100 →
        (executeWithFailover oracle now s clientIP userCountry
            maxRetries).2.failoverHistory.length ≤ 100) := by
  constructor
  · intro s now regionId message attempt h
    constructor
    · rw [recordFailoverEvent_failoverHistory]
      exact boundedPush_eq_takeLast 100 s.failoverHistory _ h
    · rw [recordFailoverEvent_failoverHistory]
      exact length_boundedPush_le 100 s.failoverHistory _ h
  · intro oracle now s clientIP userCountry maxRetries h
    exact execLoop_history_le oracle now _ s 0 maxRetries none h

/-- C7: whenever no region's health record is healthy, `getBestRegion`
returns the configured current (home) region, for every combination of
client IP and country hint. -/
theorem c7_no_healthy_current_region (s : ManagerState)
    (clientIP userCountry : Option String)
    (hall : ∀ p ∈ s.regionHealth, p.2.healthy = false) :
    getBestRegion s clientIP userCountry = s.currentRegion :=
  getBestRegion_no_healthy s clientIP userCountry hall


/-- C1 (amended): when an eligible candidate answers an attempt with a
client-class (4xx) HTTP error, the response is not returned to the caller:
a FailoverEvent is appended, the attempt is consumed, and execution
continues with the next candidate; the only 4xx-specific behaviour is that
the region's health record is left untouched (the healthy flag is not set
to false). -/
theorem c1_amended (oracle : String → Nat → ReqOutcome) (now regionId : String)
    (rest : List String) (s : ManagerState) (attempts maxRetries : Nat)
    (lastError : Option String) (config : RegionConfig) (health : HealthRecord)
    (status : Nat) (message : String)
    (hlt : attempts < maxRetries)
    (hc : mapGet REGIONS regionId = some config)
    (hh : mapGet s.regionHealth regionId = some health)
    (hhl : health.healthy = true)
    (ho : oracle regionId (attempts + 1) = .httpError status message)
    (h4xx : status < 500) :
    execLoop oracle now (regionId :: rest) s attempts maxRetries lastError =
      execLoop oracle now rest (recordFailoverEvent s now regionId message (attempts + 1))
        (attempts + 1) maxRetries (some message) ∧
    (recordFailoverEvent s now regionId message (attempts + 1)).regionHealth =
      s.regionHealth := by
  constructor
  · rw [execLoop_cons_httpError oracle now regionId rest s attempts maxRetries lastError
      config health status message hlt hc hh hhl ho]
    rw [if_neg (by omega)]
  · exact recordFailoverEvent_regionHealth s now regionId message (attempts + 1)

/-- C2 (amended): every failed attempt appends a FailoverEvent and
execution continues with the next candidate; a server-class (HTTP ≥ 500)
error additionally flips the attempted region's health record to
`healthy = false` immediately (in the very state passed to the rest of the
loop, before any health-monitor tick), while a connection-level failure —
contrary to the claim — leaves the region's health records unchanged. -/
theorem c2_amended (oracle : String → Nat → ReqOutcome) (now regionId : String)
    (rest : List String) (s : ManagerState) (attempts maxRetries : Nat)
    (lastError : Option String) (config : RegionConfig) (health : HealthRecord)
    (hlt : attempts < maxRetries)
    (hc : mapGet REGIONS regionId = some config)
    (hh : mapGet s.regionHealth regionId = some health)
    (hhl : health.healthy = true) :
    (∀ (status : Nat) (message : String),
        oracle regionId (attempts + 1) = .httpError status message → 500 ≤ status →
        execLoop oracle now (regionId :: rest) s attempts maxRetries lastError =
          execLoop oracle now rest
            (recordFailoverEvent (markRegionUnhealthy s regionId message) now regionId message
              (attempts + 1))
            (attempts + 1) maxRetries (some message) ∧
        mapGet (recordFailoverEvent (markRegionUnhealthy s regionId message) now regionId
            message (attempts + 1)).regionHealth regionId =
          some { health with healthy := false, lastError := some message }) ∧
    (∀ message : String,
        oracle regionId (attempts + 1) = .connError message →
        execLoop oracle now (regionId :: rest) s attempts maxRetries lastError =
          execLoop oracle now rest (recordFailoverEvent s now regionId message (attempts + 1))
            (attempts + 1) maxRetries (some message) ∧
        (recordFailoverEvent s now regionId message (attempts + 1)).regionHealth =
          s.regionHealth) := by
  constructor
  · intro status message ho h5
    constructor
    · rw [execLoop_cons_httpError oracle now regionId rest s attempts maxRetries lastError
        config health status message hlt hc hh hhl ho]
      rw [if_pos h5]
    · show mapGet (markRegionUnhealthy s regionId message).regionHealth regionId =
        some { health with healthy := false, lastError := some message }
      unfold markRegionUnhealthy
      rw [hh]
      show mapGet (mapSet s.regionHealth regionId
          { health with healthy := false, lastError := some message }) regionId =
        some { health with healthy := false, lastError := some message }
      exact mapGet_mapSet_self _ _ _
  · intro message ho
    constructor
    · exact execLoop_cons_connError oracle now regionId rest s attempts maxRetries lastError
        config health message hlt hc hh hhl ho
    · exact recordFailoverEvent_regionHealth s now regionId message (attempts + 1)

/-- C3 (amended): when no region's health record is healthy,
`getBestRegion` does fall back to the designated home region, but
`executeWithFailover` then skips that candidate as unhealthy like any
other, issues no request at all, and throws the exhaustion error with
`attempts = 0` and no underlying cause — "no healthy regions" surfaces as
a zero-attempt failure instead of a best-effort request. -/
theorem c3_amended (oracle : String → Nat → ReqOutcome) (now : String) (s : ManagerState)
    (clientIP userCountry : Option String) (maxRetries : Nat)
    (hall : ∀ p ∈ s.regionHealth, p.2.healthy = false) :
    getBestRegion s clientIP userCountry = s.currentRegion ∧
    executeWithFailover oracle now s clientIP userCountry maxRetries =
      (.error ⟨0, none⟩, s) := by
  constructor
  · exact getBestRegion_no_healthy s clientIP userCountry hall
  · show execLoop oracle now
        (getBestRegion s clientIP userCountry ::
          getFailoverRegions s (getBestRegion s clientIP userCountry)) s 0 maxRetries none =
      (.error ⟨0, none⟩, s)
    rw [getBestRegion_no_healthy s clientIP userCountry hall,
      getFailoverRegions_no_healthy s s.currentRegion hall]
    apply execLoop_all_skipped oracle now [s.currentRegion] s 0 maxRetries none
    intro r hr
    have hr' : r = s.currentRegion := List.mem_singleton.mp hr
    rw [hr']
    exact isSkipped_of_all_unhealthy s s.currentRegion hall


/-- C8 (amended): on a completed probe the stored record's healthy flag
equals `(statusCode = 200) AND (latency < 2 × latencyThreshold)`, its
status/statusCode/responseTime fields reflect the probe, and the latency
tracker receives the sample; on a failed probe the stored record has
status `unhealthy`, `healthy = false`, the error message, and — contrary
to the claim — its latency field reset to `null` (the previous round-trip
value is discarded with the old record), while the latency tracker
receives no sample. -/
theorem c8_amended (s : ManagerState) (regionId : String) (config : RegionConfig)
    (now message : String) (status : Nat) (latency : ℚ) :
    (∃ rec : HealthRecord,
        mapGet (checkRegionHealth s regionId config now (.ok status latency)).regionHealth
            regionId = some rec ∧
        (rec.healthy = true ↔ (status = 200 ∧ latency < 2 * config.latencyThreshold)) ∧
        rec.statusCode = some status ∧ rec.responseTime = some latency ∧
        rec.latency = some (jsRound latency) ∧
        rec.status = (if status = 200 then "healthy" else "unhealthy")) ∧
    ((mapGet (checkRegionHealth s regionId config now (.ok status latency)).latencyCache
        regionId).getD [] =
      boundedPush 10 ((mapGet s.latencyCache regionId).getD []) latency) ∧
    (∃ rec : HealthRecord,
        mapGet (checkRegionHealth s regionId config now (.err message)).regionHealth
            regionId = some rec ∧
        rec.status = "unhealthy" ∧ rec.healthy = false ∧ rec.error = some message ∧
        rec.latency = none) ∧
    ((checkRegionHealth s regionId config now (.err message)).latencyCache =
      s.latencyCache) := by
  refine ⟨⟨⟨regionId, (if status = 200 then "healthy" else "unhealthy"),
      some (jsRound latency), now, some latency, some status,
      (status == 200 && decide (latency < config.latencyThreshold * 2)), none, none⟩,
      ?_, ?_, rfl, rfl, rfl, rfl⟩, ?_, ⟨⟨regionId, "unhealthy", none, now, none, none,
      false, some message, none⟩, ?_, rfl, rfl, rfl, rfl⟩, rfl⟩
  · show mapGet (mapSet s.regionHealth regionId _) regionId = _
    exact mapGet_mapSet_self _ _ _
  · show (status == 200 && decide (latency < config.latencyThreshold * 2)) = true ↔
      (status = 200 ∧ latency < 2 * config.latencyThreshold)
    simp only [Bool.and_eq_true, beq_iff_eq, decide_eq_true_eq]
    constructor
    · rintro ⟨h1, h2⟩
      exact ⟨h1, by linarith⟩
    · rintro ⟨h1, h2⟩
      exact ⟨h1, by linarith⟩
  · show (mapGet (mapSet s.latencyCache regionId
        (boundedPush 10 ((mapGet s.latencyCache regionId).getD []) latency)) regionId).getD []
      = boundedPush 10 ((mapGet s.latencyCache regionId).getD []) latency
    rw [mapGet_mapSet_self]
    rfl
  · show mapGet (mapSet s.regionHealth regionId _) regionId = _
    exact mapGet_mapSet_self _ _ _

/-- C9 (amended): in latency-based selection, a region whose average is a
nonzero rational is always preferred over a region with no recorded
samples: whenever some candidate has a nonzero average `q`, the selected
region has a (nonzero) average `w ≤ q`, so its window is nonempty.  (The
claim as stated fails only for the average `0`, which JavaScript treats as
falsy, exactly like `null`.) -/
theorem c9_amended (s : ManagerState) (regionIds : List String) (b : String) (q : ℚ)
    (hmem : b ∈ regionIds) (havg : getAverageLatency s b = some q) (hq : q ≠ 0) :
    ∃ w, getAverageLatency s (selectByLatency s regionIds) = some w ∧ w ≠ 0 ∧ w ≤ q := by
  obtain ⟨pre, post, rfl⟩ := List.append_of_mem hmem
  unfold selectByLatency
  rw [List.foldl_append, List.foldl_cons]
  have hinv := foldl_selectStep_inv s pre
    ((pre ++ b :: post).headD "", (none : Option ℚ)) (Or.inl rfl)
  set acc1 := pre.foldl (selectStep s) ((pre ++ b :: post).headD "", (none : Option ℚ))
    with hacc1
  have hstep : ∃ w0, (selectStep s acc1 b).2 = some w0 ∧ w0 ≠ 0 ∧ w0 ≤ q ∧
      getAverageLatency s (selectStep s acc1 b).1 = some w0 := by
    rcases hinv with hnone | ⟨v, hv1, hv2, hv3⟩
    · rw [selectStep_eq_of_pos s acc1 b q havg ⟨hq, by rw [hnone]; rfl⟩]
      exact ⟨q, rfl, hq, le_refl q, havg⟩
    · by_cases hlt : q < v
      · rw [selectStep_eq_of_pos s acc1 b q havg ⟨hq, by rw [hv1]; simp [ltBest, hlt]⟩]
        exact ⟨q, rfl, hq, le_refl q, havg⟩
      · have hcond : ¬(q ≠ 0 ∧ ltBest q acc1.2 = true) := by
          rw [hv1]
          simp [ltBest, hlt]
        rw [selectStep_eq_of_neg s acc1 b q havg hcond]
        exact ⟨v, hv1, hv2, le_of_not_lt hlt, hv3⟩
  obtain ⟨w0, hw1, hw2, hw3, hw4⟩ := hstep
  obtain ⟨w, hwa, hwb, hwc, hwd⟩ :=
    foldl_selectStep_bound s post (selectStep s acc1 b) w0 hw1 hw2 hw4
  exact ⟨w, hwd, hwb, le_trans hwc hw3⟩

/-- C10: a candidate skipped because its region key is unknown or its
health record is missing or unhealthy consumes no attempt (the loop moves
on with the same attempt counter and state), and when every candidate in
the routing order is skipped the call throws the exhaustion error with
`attempts = 0` and no underlying cause, the state unchanged. -/
theorem c10_skipped_no_attempt :
    (∀ (oracle : String → Nat → ReqOutcome) (now regionId : String) (rest : List String)
        (s : ManagerState) (attempts maxRetries : Nat) (lastError : Option String),
        isSkipped s regionId = true →
        execLoop oracle now (regionId :: rest) s attempts maxRetries lastError =
          execLoop oracle now rest s attempts maxRetries lastError) ∧
    (∀ (oracle : String → Nat → ReqOutcome) (now : String) (s : ManagerState)
        (clientIP userCountry : Option String) (maxRetries : Nat),
        (∀ r ∈ regionOrderOf s clientIP userCountry, isSkipped s r = true) →
        executeWithFailover oracle now s clientIP userCountry maxRetries =
          (.error ⟨0, none⟩, s)) := by
  constructor
  · exact execLoop_skip
  · intro oracle now s clientIP userCountry maxRetries h
    exact execLoop_all_skipped oracle now (regionOrderOf s clientIP userCountry) s 0
      maxRetries none h


/-- C1 (counterexample): with us-east-1 and us-west-2 healthy and the top
candidate us-east-1 answering 404, the call does not return the 404 with
`attempts = 1`: it advances to us-west-2 and returns that region's
response with `attempts = 2` (the healthy flag of us-east-1 is indeed left
`true`). -/
theorem c1_counterexample :
    getBestRegion exTwoHealthy none none = "us-east-1" ∧
    oracle404 "us-east-1" 1 = .httpError 404 "Request failed with status code 404" ∧
    (executeWithFailover oracle404 "t1" exTwoHealthy none none 3).1 =
      .ok ⟨"ok", "us-west-2", jsRound 25, 2, 200⟩ ∧
    jsRound 25 = 25 ∧
    (mapGet (executeWithFailover oracle404 "t1" exTwoHealthy none none 3).2.regionHealth
        "us-east-1").map HealthRecord.healthy = some true :=
  ⟨rfl, rfl, rfl, by norm_num [jsRound], rfl⟩

/-- C1 (witness): the amended step equation instantiated on the concrete
404 scenario. -/
theorem c1_amended_witness :
    execLoop oracle404 "t1" ["us-east-1", "us-west-2"] exTwoHealthy 0 3 none =
      execLoop oracle404 "t1" ["us-west-2"]
        (recordFailoverEvent exTwoHealthy "t1" "us-east-1"
          "Request failed with status code 404" 1)
        1 3 (some "Request failed with status code 404") ∧
    (recordFailoverEvent exTwoHealthy "t1" "us-east-1"
        "Request failed with status code 404" 1).regionHealth = exTwoHealthy.regionHealth :=
  c1_amended oracle404 "t1" "us-east-1" ["us-west-2"] exTwoHealthy 0 3 none usEastConfig
    (exHealthyRecord "us-east-1") 404 "Request failed with status code 404"
    (by decide) rfl rfl rfl rfl (by decide)

/-- C2 (counterexample): a connection-level failure of the attempted
region appends a FailoverEvent but does not set the region's healthy flag
to false — after the call the us-east-1 record is still `healthy = true`. -/
theorem c2_counterexample :
    oracleConn "us-east-1" 1 = .connError "connect ECONNREFUSED" ∧
    (mapGet (executeWithFailover oracleConn "t1" exTwoHealthy none none 3).2.regionHealth
        "us-east-1").map HealthRecord.healthy = some true ∧
    (executeWithFailover oracleConn "t1" exTwoHealthy none none 3).2.failoverHistory =
      [⟨"t1", "us-east-1", "connect ECONNREFUSED", 1⟩] :=
  ⟨rfl, rfl, rfl⟩

/-- C2 (witness): the amended step equation instantiated on the concrete
connection-failure scenario. -/
theorem c2_amended_witness :
    execLoop oracleConn "t1" ["us-east-1", "us-west-2"] exTwoHealthy 0 3 none =
      execLoop oracleConn "t1" ["us-west-2"]
        (recordFailoverEvent exTwoHealthy "t1" "us-east-1" "connect ECONNREFUSED" 1) 1 3
        (some "connect ECONNREFUSED") ∧
    (recordFailoverEvent exTwoHealthy "t1" "us-east-1" "connect ECONNREFUSED"
        1).regionHealth = exTwoHealthy.regionHealth :=
  (c2_amended oracleConn "t1" "us-east-1" ["us-west-2"] exTwoHealthy 0 3 none usEastConfig
      (exHealthyRecord "us-east-1") (by decide) rfl rfl rfl).2 "connect ECONNREFUSED" rfl

/-- C3 (counterexample): with health records present but none healthy and
the home region configured, the call issues no request and throws the
exhaustion error with 0 attempts and no cause — refuting "still attempts
at least one request against the home region". -/
theorem c3_counterexample :
    (∀ p ∈ exAllUnhealthy.regionHealth, p.2.healthy = false) ∧
    mapGet REGIONS exAllUnhealthy.currentRegion = some usEastConfig ∧
    executeWithFailover oracle404 "t1" exAllUnhealthy none none 3 =
      (.error ⟨0, none⟩, exAllUnhealthy) :=
  ⟨by decide, rfl, rfl⟩

/-- C3 (witness): the amended theorem instantiated on the concrete
all-unhealthy state. -/
theorem c3_amended_witness :
    getBestRegion exAllUnhealthy none none = "us-east-1" ∧
    executeWithFailover oracle404 "t1" exAllUnhealthy none none 3 =
      (.error ⟨0, none⟩, exAllUnhealthy) :=
  c3_amended oracle404 "t1" exAllUnhealthy none none 3 (by decide)

/-- C5 (witness): recording the twelve samples 1..12 yields the mean of
the last ten, 7.5. -/
theorem c5_latency_window_witness :
    mapGet exNoRecords.latencyCache "us-east-1" = none ∧
    getAverageLatency
        (exSamples.foldl (fun s x => updateLatencyCache s "us-east-1" x) exNoRecords)
        "us-east-1" = some (15 / 2) := by
  refine ⟨rfl, ?_⟩
  rw [c5_latency_window exSamples "us-east-1" exNoRecords rfl]
  norm_num [exSamples, takeLast, List.sum_cons, List.sum_nil]

/-- C6 (witness): the history bound instantiated on a concrete call. -/
theorem c6_history_bound_witness :
    (executeWithFailover oracle404 "t1" exTwoHealthy none none
        3).2.failoverHistory.length ≤ 100 :=
  c6_history_bound.2 oracle404 "t1" exTwoHealthy none none 3 (by decide)

/-- C7 (witness): with every record unhealthy, `getBestRegion` returns the
home region even with an IP and a mapped country hint supplied. -/
theorem c7_no_healthy_current_region_witness :
    getBestRegion exAllUnhealthy (some "203.0.113.7") (some "US") = "us-east-1" :=
  c7_no_healthy_current_region exAllUnhealthy (some "203.0.113.7") (some "US") (by decide)

/-- C8 (counterexample): a failed probe does not leave the record's
round-trip value untouched: the us-east-1 record holds latency 50 before
the probe and `null` after it. -/
theorem c8_counterexample :
    (mapGet exProbe.regionHealth "us-east-1").map HealthRecord.latency = some (some 50) ∧
    (mapGet (checkRegionHealth exProbe "us-east-1" usEastConfig "t1"
        (.err "timeout of 5000ms exceeded")).regionHealth "us-east-1").map
      HealthRecord.latency = some none :=
  ⟨rfl, rfl⟩

/-- C9 (counterexample): region-b has a recorded sample (average 0, a
numeric value) and region-a has none (average null), yet the selection
returns region-a — the zero average is falsy in JavaScript and loses
against the no-data default. -/
theorem c9_counterexample :
    getAverageLatency exZeroAvg "region-a" = none ∧
    getAverageLatency exZeroAvg "region-b" = some 0 ∧
    selectByLatency exZeroAvg ["region-a", "region-b"] = "region-a" := by
  have havga : getAverageLatency exZeroAvg "region-a" = none := rfl
  have havgb : getAverageLatency exZeroAvg "region-b" = some 0 := by
    norm_num [getAverageLatency, mapGet, exZeroAvg, List.find?]
  refine ⟨havga, havgb, ?_⟩
  unfold selectByLatency
  rw [List.foldl_cons, selectStep_eq_of_none exZeroAvg _ "region-a" havga,
    List.foldl_cons, selectStep_eq_of_neg exZeroAvg _ "region-b" 0 havgb (by simp),
    List.foldl_nil]
  rfl

/-- C9 (witness): with region-b averaging 4 ms and region-a without data,
the selected region has a nonzero average at most 4. -/
theorem c9_amended_witness :
    ∃ w, getAverageLatency exPosAvg (selectByLatency exPosAvg ["region-a", "region-b"]) =
        some w ∧ w ≠ 0 ∧ w ≤ 4 :=
  c9_amended exPosAvg ["region-a", "region-b"] "region-b" 4 (by decide)
    (by norm_num [getAverageLatency, mapGet, exPosAvg, List.find?]) (by norm_num)

/-- C10 (witness): on a fresh state with no health records every candidate
is skipped and the call reports 0 attempts with no cause. -/
theorem c10_skipped_no_attempt_witness :
    executeWithFailover oracle404 "t1" exNoRecords none none 3 =
      (.error ⟨0, none⟩, exNoRecords) :=
  c10_skipped_no_attempt.2 oracle404 "t1" exNoRecords none none 3 (by decide)

end MultiRegion
